import Mathlib

/-!
Verification of the registry projector script `extract_uncommitted.py`.

The script reads `build/registry.json`, copies the entries of its `servers`
mapping whose keys occur in a hardcoded selection list into a fresh mapping,
and writes the result to `build/uncommitted_registry.json`, printing a summary
to standard output and a warning to standard error for each selected
identifier missing from the source mapping.

The embedding models JSON values as an inductive type, Python dictionaries as
association lists in insertion order, and the Python runtime errors the script
can raise (KeyError, TypeError, AttributeError, FileNotFoundError,
json.JSONDecodeError) as an explicit error type.  The observable behaviour of
one run (error, stderr warnings, written file, stdout lines) is collected in a
record.
-/

/-- A JSON value as produced by Python's `json.load`: objects are association
lists in insertion order (Python dicts preserve insertion order). -/
inductive Json where
  | null
  | bool (b : Bool)
  | num (n : Int)
  | str (s : String)
  | arr (elems : List Json)
  | obj (fields : List (String × Json))

/-- The Python exceptions relevant to the script.  `keyError` is the only
`LookupError` subclass that can arise here. -/
inductive PyError where
  | keyError (k : String)
  | typeError
  | attributeError
  | fileNotFoundError
  | jsonDecodeError
deriving DecidableEq

/-- Whether a Python exception is an instance of `LookupError`
(`KeyError` and `IndexError` are its subclasses; only `KeyError` occurs). -/
def PyError.isLookupError : PyError → Bool
  | .keyError _ => true
  | _ => false

/-- The keys of an association list, in order. -/
def keysOf (l : List (String × Json)) : List String :=
  l.map Prod.fst

/-- `startsWithChars n h` is true when `n` is a prefix of `h`. -/
def startsWithChars : List Char → List Char → Bool
  | [], _ => true
  | _ :: _, [] => false
  | a :: as, b :: bs => a == b && startsWithChars as bs

/-- `hasSubChars n h` is true when `n` occurs as a contiguous run in `h`
(Python's substring membership `n in h` on strings). -/
def hasSubChars (needle : List Char) : List Char → Bool
  | [] => needle.isEmpty
  | c :: rest => startsWithChars needle (c :: rest) || hasSubChars needle rest

/-- Python `==` between a string literal and an arbitrary JSON value: only a
string with the same characters compares equal. -/
def isStrEq (name : String) : Json → Bool
  | .str s => s == name
  | _ => false

/-- Python's `name in container` for a string `name`: key membership for
dicts, substring test for strings, element membership for lists, and a
`TypeError` for the non-iterable values. -/
def pyContains (container : Json) (name : String) : Except PyError Bool :=
  match container with
  | .obj fields => .ok ((keysOf fields).contains name)
  | .str s => .ok (hasSubChars name.toList s.toList)
  | .arr elems => .ok (elems.any (isStrEq name))
  | _ => .error .typeError

/-- Python's `container[key]` for a string `key`: dict lookup with a
`KeyError` when absent; strings and lists demand integer indices. -/
def getItem (container : Json) (key : String) : Except PyError Json :=
  match container with
  | .obj fields =>
    match fields.lookup key with
    | some v => .ok v
    | none => .error (.keyError key)
  | _ => .error .typeError

/-- Python's `container.get(key, default)`: defined on dicts only; any other
value raises an `AttributeError`. -/
def pyDictGet (container : Json) (key : String) (default : Json) : Except PyError Json :=
  match container with
  | .obj fields => .ok ((fields.lookup key).getD default)
  | _ => .error .attributeError

/-- Python dict assignment `d[key] = v`: an existing key keeps its position
and gets the new value, a fresh key is appended at the end. -/
def dictInsert (fields : List (String × Json)) (key : String) (v : Json) :
    List (String × Json) :=
  if (keysOf fields).contains key then
    fields.map (fun p => if p.1 == key then (key, v) else p)
  else fields ++ [(key, v)]

/-- The hardcoded selection list `uncommitted_servers` of the script. -/
def uncommitted_servers : List String :=
  ["arxiv-mcp-server",
   "brightdata-mcp",
   "ida-pro-mcp",
   "magic-mcp",
   "mcp-jetbrains",
   "mcp-neo4j-aura-manager",
   "mcp-neo4j-cypher",
   "mcp-neo4j-memory",
   "mcp-server-neon",
   "tavily-mcp"]

/-- The stderr line the script prints for a selected identifier that is
absent from the source mapping. -/
def warningMsg (name : String) : String :=
  "Warning: Server \x27" ++ name ++ "\x27 not found in registry.json"

/-- The extraction loop of the script: for each selected name, test
`name in registry["servers"]`; copy the entry on a hit, emit a warning on a
miss.  Returns the built mapping (or the first uncaught exception) together
with the stderr lines emitted before termination. -/
def extractLoop (registry : Json) : List String → List (String × Json) →
    Except PyError (List (String × Json)) × List String
  | [], acc => (.ok acc, [])
  | name :: rest, acc =>
    match getItem registry "servers" with
    | .error e => (.error e, [])
    | .ok servers =>
      match pyContains servers name with
      | .error e => (.error e, [])
      | .ok true =>
        match getItem servers name with
        | .error e => (.error e, [])
        | .ok v => extractLoop registry rest (dictInsert acc name v)
      | .ok false =>
        let (r, ws) := extractLoop registry rest acc
        (r, warningMsg name :: ws)

/-- The fixed output path of the script. -/
def outputFile : String := "build/uncommitted_registry.json"

/-- The first stdout summary line. -/
def countLine (n : Nat) : String :=
  "Extracted " ++ toString n ++ " uncommitted servers to " ++ outputFile

/-- The second stdout summary line. -/
def includedLine (names : List String) : String :=
  "Servers included: " ++ String.intercalate ", " names

/-- The observable outcome of one run: the uncaught exception if any, the
stderr warning lines, the JSON document written to the output file (`none`
when the run dies before the write), and the stdout lines. -/
structure RunResult where
  error : Option PyError
  warnings : List String
  written : Option Json
  stdoutLines : List String

/-- The exit status of the process: `0` on a clean run, `1` when an uncaught
exception terminates it. -/
def RunResult.exitCode (r : RunResult) : Nat :=
  match r.error with
  | some _ => 1
  | none => 0

/-- The part of the script after `json.load` has produced `registry`:
build the header fields with `registry.get(..., "")`, run the extraction
loop, then write the document and print the two summary lines. -/
def runWithRegistry (registry : Json) (selection : List String) : RunResult :=
  match pyDictGet registry "$schema" (Json.str "") with
  | .error e => { error := some e, warnings := [], written := none, stdoutLines := [] }
  | .ok schemaVal =>
    match pyDictGet registry "version" (Json.str "") with
    | .error e => { error := some e, warnings := [], written := none, stdoutLines := [] }
    | .ok versionVal =>
      match pyDictGet registry "last_updated" (Json.str "") with
      | .error e => { error := some e, warnings := [], written := none, stdoutLines := [] }
      | .ok lastUpdatedVal =>
        match extractLoop registry selection [] with
        | (.error e, ws) =>
          { error := some e, warnings := ws, written := none, stdoutLines := [] }
        | (.ok srv, ws) =>
          { error := none, warnings := ws,
            written := some (Json.obj [("$schema", schemaVal), ("version", versionVal),
              ("last_updated", lastUpdatedVal), ("servers", Json.obj srv)]),
            stdoutLines := [countLine srv.length, includedLine (keysOf srv)] }

/-- The state of the input file `build/registry.json` as the script finds it:
missing, present but not valid JSON, or parsed to a JSON value. -/
inductive InputFile where
  | missing
  | invalidJson
  | parsed (registry : Json)

/-- `json.load(open("build/registry.json"))`: `FileNotFoundError` when the
file is missing, `json.JSONDecodeError` when its content is not valid JSON
(the spec calls these `NotFoundError` and `ParseError`). -/
def loadRegistry : InputFile → Except PyError Json
  | .missing => .error .fileNotFoundError
  | .invalidJson => .error .jsonDecodeError
  | .parsed j => .ok j

/-- The whole script, from `json.load` to the final prints. -/
def fullRun (file : InputFile) (selection : List String) : RunResult :=
  match loadRegistry file with
  | .error e => { error := some e, warnings := [], written := none, stdoutLines := [] }
  | .ok reg => runWithRegistry reg selection

/-- A passthrough header field of the output document:
`registry.get(key, "")` on an object registry. -/
def passThrough (fields : List (String × Json)) (key : String) : Json :=
  (fields.lookup key).getD (Json.str "")

/-- The output document the script writes for an object registry whose
projected servers mapping is `srv`. -/
def outputDoc (fields srv : List (String × Json)) : Json :=
  Json.obj [("$schema", passThrough fields "$schema"),
    ("version", passThrough fields "version"),
    ("last_updated", passThrough fields "last_updated"),
    ("servers", Json.obj srv)]

/-- Pure description of the extraction loop once `registry["servers"]` is
known to be the mapping `srv`: fold over the selection, inserting the looked
up value on a hit and skipping on a miss. -/
def loopPure (srv : List (String × Json)) : List String → List (String × Json) →
    List (String × Json)
  | [], acc => acc
  | name :: rest, acc =>
    if (keysOf srv).contains name then
      loopPure srv rest (dictInsert acc name ((srv.lookup name).getD Json.null))
    else loopPure srv rest acc

/-- The warning lines the loop emits once `registry["servers"]` is the
mapping `srv`: one line per selected name missing from `srv`, in order. -/
def warnsOf (srv : List (String × Json)) (selection : List String) : List String :=
  (selection.filter (fun k => !(keysOf srv).contains k)).map warningMsg

/-- The elements of a list that are not in `seen`, kept in order of first
occurrence (formalising the order in which first occurrences appear). -/
def firstOccurrences (seen : List String) : List String → List String
  | [] => []
  | x :: xs =>
    if seen.contains x then firstOccurrences seen xs
    else x :: firstOccurrences (seen ++ [x]) xs

/-! ### Basic lemmas about the dictionary operations -/

theorem contains_eq_true_iff (l : List String) (a : String) :
    l.contains a = true ↔ a ∈ l := by
  induction l with
  | nil => simp
  | cons x xs ih => simp [List.contains_cons, ih]

theorem mem_keysOf_iff_isSome (l : List (String × Json)) (k : String) :
    k ∈ keysOf l ↔ (l.lookup k).isSome = true := by
  simp only [keysOf, List.lookup_isSome_iff, List.mem_map, beq_iff_eq]
  constructor
  · rintro ⟨p, hp, rfl⟩
    exact ⟨p, hp, rfl⟩
  · rintro ⟨p, hp, rfl⟩
    exact ⟨p, hp, rfl⟩

theorem fst_update (k : String) (v : Json) (p : String × Json) :
    (if p.1 == k then (k, v) else p).1 = p.1 := by
  by_cases h : p.1 = k
  · simp [h]
  · simp [h]

theorem keysOf_mapUpdate (acc : List (String × Json)) (k : String) (v : Json) :
    keysOf (acc.map (fun p => if p.1 == k then (k, v) else p)) = keysOf acc := by
  induction acc with
  | nil => rfl
  | cons p rest ih =>
    simp only [List.map_cons, keysOf, fst_update]
    exact congrArg (List.cons p.1) ih

theorem keysOf_dictInsert_of_mem {acc : List (String × Json)} {k : String}
    (v : Json) (h : k ∈ keysOf acc) :
    keysOf (dictInsert acc k v) = keysOf acc := by
  unfold dictInsert
  rw [if_pos ((contains_eq_true_iff _ _).2 h)]
  exact keysOf_mapUpdate acc k v

theorem keysOf_dictInsert_of_not_mem {acc : List (String × Json)} {k : String}
    (v : Json) (h : k ∉ keysOf acc) :
    keysOf (dictInsert acc k v) = keysOf acc ++ [k] := by
  unfold dictInsert
  rw [if_neg (fun hc => h ((contains_eq_true_iff _ _).1 hc))]
  simp [keysOf]

theorem lookup_mapUpdate_self (acc : List (String × Json)) (k : String) (v : Json)
    (h : (acc.lookup k).isSome = true) :
    (acc.map (fun p => if p.1 == k then (k, v) else p)).lookup k = some v := by
  induction acc with
  | nil => simp at h
  | cons p rest ih =>
    rcases p with ⟨a, b⟩
    by_cases hp : a = k
    · simp [List.lookup_cons, hp]
    · have ha : (a == k) = false := by simp [hp]
      have hk : (k == a) = false := by simp [Ne.symm hp]
      simp only [List.map_cons, ha, Bool.false_eq_true, if_false, List.lookup_cons, hk]
      apply ih
      simpa [List.lookup_cons, hk] using h

theorem lookup_mapUpdate_other (acc : List (String × Json)) (k : String) (v : Json)
    {x : String} (hx : x ≠ k) :
    (acc.map (fun p => if p.1 == k then (k, v) else p)).lookup x = acc.lookup x := by
  induction acc with
  | nil => rfl
  | cons p rest ih =>
    rcases p with ⟨a, b⟩
    by_cases hp : a = k
    · have hak : (a == k) = true := by simp [hp]
      have hxa : (x == a) = false := by simp [hp, hx]
      have hxk : (x == k) = false := by simp [hx]
      simp only [List.map_cons, hak, eq_self_iff_true, if_true, List.lookup_cons, hxa, hxk]
      exact ih
    · have hak : (a == k) = false := by simp [hp]
      simp only [List.map_cons, hak, Bool.false_eq_true, if_false, List.lookup_cons]
      cases hxa : (x == a) with
      | true => rfl
      | false => exact ih

theorem lookup_dictInsert_self (acc : List (String × Json)) (k : String) (v : Json) :
    (dictInsert acc k v).lookup k = some v := by
  by_cases h : k ∈ keysOf acc
  · unfold dictInsert
    rw [if_pos ((contains_eq_true_iff _ _).2 h)]
    exact lookup_mapUpdate_self acc k v ((mem_keysOf_iff_isSome acc k).1 h)
  · unfold dictInsert
    rw [if_neg (fun hc => h ((contains_eq_true_iff _ _).1 hc))]
    have hnone : acc.lookup k = none := by
      cases hl : acc.lookup k with
      | none => rfl
      | some w =>
        exact absurd ((mem_keysOf_iff_isSome acc k).2 (by simp [hl])) h
    rw [List.lookup_append, hnone]
    simp [List.lookup_cons]

theorem lookup_dictInsert_other (acc : List (String × Json)) (k : String) (v : Json)
    {x : String} (hx : x ≠ k) :
    (dictInsert acc k v).lookup x = acc.lookup x := by
  unfold dictInsert
  split
  · exact lookup_mapUpdate_other acc k v hx
  · rw [List.lookup_append]
    cases hl : acc.lookup x with
    | some w => rfl
    | none =>
      have hxk : (x == k) = false := by simp [hx]
      simp [List.lookup_cons, hxk]

theorem nodup_keysOf_dictInsert (acc : List (String × Json)) (k : String) (v : Json)
    (h : (keysOf acc).Nodup) : (keysOf (dictInsert acc k v)).Nodup := by
  by_cases hc : k ∈ keysOf acc
  · rw [keysOf_dictInsert_of_mem v hc]
    exact h
  · rw [keysOf_dictInsert_of_not_mem v hc]
    simp [List.nodup_append, h, hc]

/-! ### The extraction loop once the servers mapping is known -/

theorem extractLoop_eq_of_servers (reg : Json) (srv : List (String × Json))
    (h : getItem reg "servers" = Except.ok (Json.obj srv)) (S : List String) :
    ∀ acc, extractLoop reg S acc = (Except.ok (loopPure srv S acc), warnsOf srv S) := by
  induction S with
  | nil => intro acc; rfl
  | cons name rest ih =>
    intro acc
    by_cases hc : (keysOf srv).contains name = true
    · have hs : (srv.lookup name).isSome = true :=
        (mem_keysOf_iff_isSome srv name).1 ((contains_eq_true_iff _ _).1 hc)
      obtain ⟨v, hv⟩ := Option.isSome_iff_exists.1 hs
      have hg : getItem (Json.obj srv) name = Except.ok v := by
        simp only [getItem, hv]
      have hm : name ∈ keysOf srv := (contains_eq_true_iff _ _).1 hc
      have hwarn : warnsOf srv (name :: rest) = warnsOf srv rest := by
        simp [warnsOf, List.filter_cons, hm]
      have hloop : loopPure srv (name :: rest) acc =
          loopPure srv rest (dictInsert acc name v) := by
        simp [loopPure, hm, hv]
      simp only [extractLoop, h, pyContains, hc, hg, ih, hwarn, hloop]
    · have hc' : (keysOf srv).contains name = false := by simpa using hc
      have hm : name ∉ keysOf srv := fun hmm => hc ((contains_eq_true_iff _ _).2 hmm)
      have hwarn : warnsOf srv (name :: rest) = warningMsg name :: warnsOf srv rest := by
        simp [warnsOf, List.filter_cons, hm]
      have hloop : loopPure srv (name :: rest) acc = loopPure srv rest acc := by
        simp [loopPure, hm]
      simp only [extractLoop, h, pyContains, hc', ih, hwarn, hloop]

/-! ### Properties of the pure loop -/

theorem keysOf_loopPure (srv : List (String × Json)) (S : List String) :
    ∀ acc, keysOf (loopPure srv S acc) =
      keysOf acc ++
        firstOccurrences (keysOf acc) (S.filter (fun k => (keysOf srv).contains k)) := by
  induction S with
  | nil => intro acc; simp [loopPure, firstOccurrences]
  | cons name rest ih =>
    intro acc
    by_cases hs : name ∈ keysOf srv
    · have hfil : (name :: rest).filter (fun k => (keysOf srv).contains k) =
          name :: rest.filter (fun k => (keysOf srv).contains k) := by
        simp [List.filter_cons, hs]
      have hloop : loopPure srv (name :: rest) acc =
          loopPure srv rest (dictInsert acc name ((srv.lookup name).getD Json.null)) := by
        simp [loopPure, hs]
      rw [hloop, hfil, ih]
      by_cases ha : name ∈ keysOf acc
      · rw [keysOf_dictInsert_of_mem _ ha]
        have : firstOccurrences (keysOf acc)
            (name :: rest.filter (fun k => (keysOf srv).contains k)) =
            firstOccurrences (keysOf acc) (rest.filter (fun k => (keysOf srv).contains k)) := by
          simp [firstOccurrences, ha]
        rw [this]
      · rw [keysOf_dictInsert_of_not_mem _ ha]
        have : firstOccurrences (keysOf acc)
            (name :: rest.filter (fun k => (keysOf srv).contains k)) =
            name :: firstOccurrences (keysOf acc ++ [name])
              (rest.filter (fun k => (keysOf srv).contains k)) := by
          simp [firstOccurrences, ha]
        rw [this, List.append_assoc]
        rfl
    · have hfil : (name :: rest).filter (fun k => (keysOf srv).contains k) =
          rest.filter (fun k => (keysOf srv).contains k) := by
        simp [List.filter_cons, hs]
      have hloop : loopPure srv (name :: rest) acc = loopPure srv rest acc := by
        simp [loopPure, hs]
      rw [hloop, hfil, ih]

theorem lookup_loopPure_of_not_mem (srv : List (String × Json)) (S : List String) :
    ∀ acc {k : String}, k ∉ S → (loopPure srv S acc).lookup k = acc.lookup k := by
  induction S with
  | nil => intro acc k _; rfl
  | cons name rest ih =>
    intro acc k hk
    have hk1 : k ≠ name := fun hc => hk (hc ▸ List.mem_cons_self name rest)
    have hk2 : k ∉ rest := fun hc => hk (List.mem_cons_of_mem name hc)
    by_cases hs : name ∈ keysOf srv
    · have hloop : loopPure srv (name :: rest) acc =
          loopPure srv rest (dictInsert acc name ((srv.lookup name).getD Json.null)) := by
        simp [loopPure, hs]
      rw [hloop, ih _ hk2, lookup_dictInsert_other _ _ _ hk1]
    · have hloop : loopPure srv (name :: rest) acc = loopPure srv rest acc := by
        simp [loopPure, hs]
      rw [hloop, ih _ hk2]

theorem lookup_loopPure_of_mem (srv : List (String × Json)) (S : List String) :
    ∀ acc {k : String}, k ∈ S → k ∈ keysOf srv →
      (loopPure srv S acc).lookup k = srv.lookup k := by
  induction S with
  | nil => intro acc k hk _; exact absurd hk (List.not_mem_nil k)
  | cons name rest ih =>
    intro acc k hk hsv
    by_cases hr : k ∈ rest
    · by_cases hs : name ∈ keysOf srv
      · have hloop : loopPure srv (name :: rest) acc =
            loopPure srv rest (dictInsert acc name ((srv.lookup name).getD Json.null)) := by
          simp [loopPure, hs]
        rw [hloop, ih _ hr hsv]
      · have hloop : loopPure srv (name :: rest) acc = loopPure srv rest acc := by
          simp [loopPure, hs]
        rw [hloop, ih _ hr hsv]
    · have hkn : k = name := by
        rcases List.mem_cons.1 hk with h1 | h2
        · exact h1
        · exact absurd h2 hr
      subst hkn
      have hloop : loopPure srv (k :: rest) acc =
          loopPure srv rest (dictInsert acc k ((srv.lookup k).getD Json.null)) := by
        simp [loopPure, hsv]
      obtain ⟨v, hv⟩ := Option.isSome_iff_exists.1 ((mem_keysOf_iff_isSome srv k).1 hsv)
      rw [hloop, lookup_loopPure_of_not_mem srv rest _ hr, lookup_dictInsert_self, hv]
      rfl

theorem nodup_keysOf_loopPure (srv : List (String × Json)) (S : List String) :
    ∀ acc, (keysOf acc).Nodup → (keysOf (loopPure srv S acc)).Nodup := by
  induction S with
  | nil => intro acc h; exact h
  | cons name rest ih =>
    intro acc h
    by_cases hs : name ∈ keysOf srv
    · have hloop : loopPure srv (name :: rest) acc =
          loopPure srv rest (dictInsert acc name ((srv.lookup name).getD Json.null)) := by
        simp [loopPure, hs]
      rw [hloop]
      exact ih _ (nodup_keysOf_dictInsert acc name _ h)
    · have hloop : loopPure srv (name :: rest) acc = loopPure srv rest acc := by
        simp [loopPure, hs]
      rw [hloop]
      exact ih _ h

/-! ### Properties of firstOccurrences -/

theorem mem_firstOccurrences (l : List String) :
    ∀ seen x, x ∈ firstOccurrences seen l ↔ x ∈ l ∧ x ∉ seen := by
  induction l with
  | nil => intro seen x; simp [firstOccurrences]
  | cons y ys ih =>
    intro seen x
    by_cases h : y ∈ seen
    · rw [show firstOccurrences seen (y :: ys) = firstOccurrences seen ys by
        simp [firstOccurrences, h]]
      rw [ih]
      constructor
      · rintro ⟨h1, h2⟩
        exact ⟨List.mem_cons_of_mem y h1, h2⟩
      · rintro ⟨h1, h2⟩
        rcases List.mem_cons.1 h1 with rfl | hm
        · exact absurd h h2
        · exact ⟨hm, h2⟩
    · rw [show firstOccurrences seen (y :: ys) =
          y :: firstOccurrences (seen ++ [y]) ys by simp [firstOccurrences, h]]
      simp only [List.mem_cons, ih, List.mem_append, List.not_mem_nil, or_false]
      constructor
      · rintro (rfl | ⟨h1, h2⟩)
        · exact ⟨Or.inl rfl, h⟩
        · exact ⟨Or.inr h1, fun hx => h2 (Or.inl hx)⟩
      · rintro ⟨rfl | h1, h2⟩
        · exact Or.inl rfl
        · by_cases hxy : x = y
          · exact Or.inl hxy
          · exact Or.inr ⟨h1, fun hx => hx.elim h2 hxy⟩

theorem nodup_firstOccurrences (l : List String) :
    ∀ seen, (firstOccurrences seen l).Nodup := by
  induction l with
  | nil => intro seen; simp [firstOccurrences]
  | cons y ys ih =>
    intro seen
    by_cases h : y ∈ seen
    · rw [show firstOccurrences seen (y :: ys) = firstOccurrences seen ys by
        simp [firstOccurrences, h]]
      exact ih seen
    · rw [show firstOccurrences seen (y :: ys) =
          y :: firstOccurrences (seen ++ [y]) ys by simp [firstOccurrences, h]]
      refine List.nodup_cons.2 ⟨?_, ih _⟩
      intro hy
      have := (mem_firstOccurrences ys _ y).1 hy
      exact this.2 (by simp)

/-! ### The run once the registry is an object with a servers mapping -/

theorem getItem_obj_servers (fields : List (String × Json)) (sv : Json)
    (h : fields.lookup "servers" = some sv) :
    getItem (Json.obj fields) "servers" = Except.ok sv := by
  simp only [getItem, h]

theorem runWithRegistry_obj (fields srv : List (String × Json)) (S : List String)
    (h : fields.lookup "servers" = some (Json.obj srv)) :
    runWithRegistry (Json.obj fields) S =
      { error := none, warnings := warnsOf srv S,
        written := some (outputDoc fields (loopPure srv S [])),
        stdoutLines := [countLine (loopPure srv S []).length,
          includedLine (keysOf (loopPure srv S []))] } := by
  have hloop := extractLoop_eq_of_servers (Json.obj fields) srv
    (getItem_obj_servers fields (Json.obj srv) h) S []
  simp only [runWithRegistry, pyDictGet, hloop, outputDoc, passThrough]

/-! ### Congruence: the run depends on the registry only through the four fields -/

theorem extractLoop_congr (r1 r2 : Json)
    (h : getItem r1 "servers" = getItem r2 "servers") (S : List String) :
    ∀ acc, extractLoop r1 S acc = extractLoop r2 S acc := by
  induction S with
  | nil => intro acc; rfl
  | cons name rest ih =>
    intro acc
    simp only [extractLoop, h]
    split
    · rfl
    · split
      · rfl
      · split
        · rfl
        · exact ih _
      · rw [ih acc]

/-! ### Injectivity of the warning message in the missing identifier -/

theorem warningMsg_inj {a b : String} (h : warningMsg a = warningMsg b) : a = b := by
  have hd : (warningMsg a).data = (warningMsg b).data := by rw [h]
  simp only [warningMsg, String.data_append] at hd
  have h2 := List.append_cancel_right hd
  have h3 := List.append_cancel_left h2
  cases a with
  | mk da =>
    cases b with
    | mk db => exact congrArg String.mk h3

/-! ### Corollaries about the projected mapping built from the empty accumulator -/

theorem keysOf_loopPure_nil (srv : List (String × Json)) (S : List String) :
    keysOf (loopPure srv S []) =
      firstOccurrences [] (S.filter (fun k => (keysOf srv).contains k)) := by
  have h := keysOf_loopPure srv S []
  simpa [keysOf] using h

theorem mem_keysOf_loopPure_nil (srv : List (String × Json)) (S : List String)
    (k : String) :
    k ∈ keysOf (loopPure srv S []) ↔ k ∈ S ∧ k ∈ keysOf srv := by
  rw [keysOf_loopPure_nil, mem_firstOccurrences]
  simp [List.mem_filter]

theorem nodup_keysOf_loopPure_nil (srv : List (String × Json)) (S : List String) :
    (keysOf (loopPure srv S [])).Nodup := by
  apply nodup_keysOf_loopPure
  simp [keysOf]

/-! ### Projecting with the full key list reproduces the source mapping -/

theorem loopPure_all_mem (srv : List (String × Json)) :
    ∀ (L : List String) (acc : List (String × Json)),
      (∀ k ∈ L, k ∈ keysOf srv) → L.Nodup → (∀ k ∈ L, k ∉ keysOf acc) →
      loopPure srv L acc =
        acc ++ L.map (fun k => (k, (srv.lookup k).getD Json.null)) := by
  intro L
  induction L with
  | nil => intro acc _ _ _; simp [loopPure]
  | cons name rest ih =>
    intro acc hsub hnd hdis
    have hs : name ∈ keysOf srv := hsub name (List.mem_cons_self _ _)
    have hna : name ∉ keysOf acc := hdis name (List.mem_cons_self _ _)
    have hloop : loopPure srv (name :: rest) acc =
        loopPure srv rest (dictInsert acc name ((srv.lookup name).getD Json.null)) := by
      simp [loopPure, hs]
    have hins : dictInsert acc name ((srv.lookup name).getD Json.null) =
        acc ++ [(name, (srv.lookup name).getD Json.null)] := by
      unfold dictInsert
      rw [if_neg (fun hc => hna ((contains_eq_true_iff _ _).1 hc))]
    have h1 : ∀ k ∈ rest, k ∈ keysOf srv := fun k hk => hsub k (List.mem_cons_of_mem _ hk)
    have h2 : rest.Nodup := (List.nodup_cons.1 hnd).2
    have h3 : ∀ k ∈ rest,
        k ∉ keysOf (acc ++ [(name, (srv.lookup name).getD Json.null)]) := by
      intro k hk hmem
      have hkeys : keysOf (acc ++ [(name, (srv.lookup name).getD Json.null)]) =
          keysOf acc ++ [name] := by simp [keysOf]
      rw [hkeys] at hmem
      rcases List.mem_append.1 hmem with hin | hin
      · exact hdis k (List.mem_cons_of_mem _ hk) hin
      · have hkn : k = name := by simpa using hin
        exact (List.nodup_cons.1 hnd).1 (hkn ▸ hk)
    rw [hloop, hins, ih _ h1 h2 h3]
    simp

theorem map_keysOf_eq_self (srv : List (String × Json)) :
    (keysOf srv).Nodup →
    (keysOf srv).map (fun k => (k, (srv.lookup k).getD Json.null)) = srv := by
  induction srv with
  | nil => intro _; rfl
  | cons p rest ih =>
    intro h
    rcases p with ⟨a, b⟩
    have h' : (a :: keysOf rest).Nodup := by simpa [keysOf] using h
    have ha : a ∉ keysOf rest := (List.nodup_cons.1 h').1
    have hr : (keysOf rest).Nodup := (List.nodup_cons.1 h').2
    have hkeys : keysOf ((a, b) :: rest) = a :: keysOf rest := by simp [keysOf]
    rw [hkeys, List.map_cons]
    have hhead : ((((a, b) :: rest).lookup a).getD Json.null) = b := by
      simp [List.lookup_cons]
    have htail : (keysOf rest).map
        (fun k => (k, (((a, b) :: rest).lookup k).getD Json.null)) =
        (keysOf rest).map (fun k => (k, (rest.lookup k).getD Json.null)) := by
      apply List.map_congr_left
      intro k hk
      have hka : (k == a) = false := by
        have hne : k ≠ a := fun hc => ha (hc ▸ hk)
        simp [hne]
      simp [List.lookup_cons, hka]
    rw [hhead, htail, ih hr]

theorem loopPure_full_selection (srv : List (String × Json))
    (h : (keysOf srv).Nodup) : loopPure srv (keysOf srv) [] = srv := by
  have hall := loopPure_all_mem srv (keysOf srv) [] (fun k hk => hk) h
    (by intro k _ hk; simp [keysOf] at hk)
  rw [hall, List.nil_append, map_keysOf_eq_self srv h]

/-! ### Counting helpers -/

theorem contains_eq_false_iff (l : List String) (a : String) :
    l.contains a = false ↔ a ∉ l := by
  rw [← contains_eq_true_iff]
  cases l.contains a <;> simp

theorem count_eq_one_of_nodup_mem {l : List String} {a : String}
    (hnd : l.Nodup) (ha : a ∈ l) : l.count a = 1 := by
  induction l with
  | nil => cases ha
  | cons x xs ih =>
    rcases List.mem_cons.1 ha with rfl | hm
    · rw [List.count_cons_self]
      rw [List.count_eq_zero.2 (List.nodup_cons.1 hnd).1]
    · have hx : a ≠ x := fun hc => (List.nodup_cons.1 hnd).1 (hc ▸ hm)
      rw [List.count_cons_of_ne hx]
      exact ih (List.nodup_cons.1 hnd).2 hm

theorem count_map_warningMsg (l : List String) (a : String) :
    (l.map warningMsg).count (warningMsg a) = l.count a := by
  induction l with
  | nil => rfl
  | cons x xs ih =>
    by_cases hx : x = a
    · subst hx
      rw [List.map_cons, List.count_cons_self, List.count_cons_self, ih]
    · have h1 : warningMsg a ≠ warningMsg x := fun hc => hx (warningMsg_inj hc).symm
      rw [List.map_cons, List.count_cons_of_ne h1, List.count_cons_of_ne (Ne.symm hx), ih]

/-! ### Case analysis of a whole run -/

theorem runWithRegistry_cases (registry : Json) (S : List String) :
    ((runWithRegistry registry S).error.isSome = true →
      (runWithRegistry registry S).written = none ∧
      (runWithRegistry registry S).stdoutLines = []) ∧
    ((runWithRegistry registry S).error = none →
      ∃ srv ws, extractLoop registry S [] = (Except.ok srv, ws) ∧
        ∃ d1 d2 d3, (runWithRegistry registry S).written =
          some (Json.obj [("$schema", d1), ("version", d2), ("last_updated", d3),
            ("servers", Json.obj srv)])) := by
  unfold runWithRegistry
  split
  · exact ⟨fun _ => ⟨rfl, rfl⟩, fun hc => absurd hc (by simp)⟩
  · split
    · exact ⟨fun _ => ⟨rfl, rfl⟩, fun hc => absurd hc (by simp)⟩
    · split
      · exact ⟨fun _ => ⟨rfl, rfl⟩, fun hc => absurd hc (by simp)⟩
      · split
        · exact ⟨fun _ => ⟨rfl, rfl⟩, fun hc => absurd hc (by simp)⟩
        · rename_i heq
          exact ⟨fun hc => absurd hc (by simp), fun _ =>
            ⟨_, _, heq, _, _, _, rfl⟩⟩

/-! ### The claims -/

/-- C1: for every selection list and every registry whose servers field is a
mapping, the projected servers mapping has a key exactly when the key occurs
both in the selection list and among the source keys (no extra and no missing
keys), its key list has no duplicates, and the stdout lines print the size of
that key set and the key list. -/
theorem claim_C1 (fields srv : List (String × Json)) (S : List String)
    (h : fields.lookup "servers" = some (Json.obj srv)) :
    ∃ out : List (String × Json),
      (runWithRegistry (Json.obj fields) S).written = some (outputDoc fields out) ∧
      (∀ k, k ∈ keysOf out ↔ k ∈ S ∧ k ∈ keysOf srv) ∧
      (keysOf out).Nodup ∧
      (runWithRegistry (Json.obj fields) S).stdoutLines =
        [countLine out.length, includedLine (keysOf out)] := by
  refine ⟨loopPure srv S [], ?_, ?_, ?_, ?_⟩
  · rw [runWithRegistry_obj fields srv S h]
  · exact fun k => mem_keysOf_loopPure_nil srv S k
  · exact nodup_keysOf_loopPure_nil srv S
  · rw [runWithRegistry_obj fields srv S h]

theorem claim_C1_witness :
    ∃ out : List (String × Json),
      (runWithRegistry (Json.obj [("servers", Json.obj [("a", Json.num 1)])])
        ["a", "z"]).written =
        some (outputDoc [("servers", Json.obj [("a", Json.num 1)])] out) ∧
      (∀ k, k ∈ keysOf out ↔ k ∈ ["a", "z"] ∧ k ∈ keysOf [("a", Json.num 1)]) ∧
      (keysOf out).Nodup ∧
      (runWithRegistry (Json.obj [("servers", Json.obj [("a", Json.num 1)])])
        ["a", "z"]).stdoutLines = [countLine out.length, includedLine (keysOf out)] :=
  claim_C1 [("servers", Json.obj [("a", Json.num 1)])] [("a", Json.num 1)] ["a", "z"] rfl

/-- C2: every identifier present in both the selection list and the source
servers mapping appears exactly once among the projected keys, and its value
in the projection is exactly the value looked up in the source mapping (deep
equality, no mutation, no partial copy). -/
theorem claim_C2 (fields srv : List (String × Json)) (S : List String)
    (h : fields.lookup "servers" = some (Json.obj srv)) :
    ∃ out : List (String × Json),
      (runWithRegistry (Json.obj fields) S).written = some (outputDoc fields out) ∧
      ∀ k, k ∈ S → k ∈ keysOf srv →
        (keysOf out).count k = 1 ∧ out.lookup k = srv.lookup k := by
  refine ⟨loopPure srv S [], ?_, ?_⟩
  · rw [runWithRegistry_obj fields srv S h]
  · intro k hkS hksrv
    refine ⟨?_, ?_⟩
    · exact count_eq_one_of_nodup_mem (nodup_keysOf_loopPure_nil srv S)
        ((mem_keysOf_loopPure_nil srv S k).2 ⟨hkS, hksrv⟩)
    · exact lookup_loopPure_of_mem srv S [] hkS hksrv

theorem claim_C2_witness :
    ∃ out : List (String × Json),
      (runWithRegistry (Json.obj [("servers", Json.obj [("a", Json.num 1)])])
        ["a", "z"]).written =
        some (outputDoc [("servers", Json.obj [("a", Json.num 1)])] out) ∧
      ∀ k, k ∈ ["a", "z"] → k ∈ keysOf [("a", Json.num 1)] →
        (keysOf out).count k = 1 ∧
        out.lookup k = List.lookup k [("a", Json.num 1)] :=
  claim_C2 [("servers", Json.obj [("a", Json.num 1)])] [("a", Json.num 1)] ["a", "z"] rfl

/-- C3: the key order of the projected servers mapping is the order of first
occurrence of the included identifiers in the selection list, the last stdout
line joins exactly those keys in that order, and the order is unchanged when
the source mapping is replaced by any mapping with the same key membership
(so it does not depend on the internal key order of the source). -/
theorem claim_C3 (fields srv : List (String × Json)) (S : List String)
    (h : fields.lookup "servers" = some (Json.obj srv)) :
    ∃ out : List (String × Json),
      (runWithRegistry (Json.obj fields) S).written = some (outputDoc fields out) ∧
      keysOf out = firstOccurrences [] (S.filter (fun k => (keysOf srv).contains k)) ∧
      (runWithRegistry (Json.obj fields) S).stdoutLines.getLast? =
        some (includedLine (keysOf out)) ∧
      (∀ (fields' srv' : List (String × Json)),
        fields'.lookup "servers" = some (Json.obj srv') →
        (∀ k, k ∈ keysOf srv' ↔ k ∈ keysOf srv) →
        ∃ out' : List (String × Json),
          (runWithRegistry (Json.obj fields') S).written =
            some (outputDoc fields' out') ∧ keysOf out' = keysOf out) := by
  refine ⟨loopPure srv S [], ?_, keysOf_loopPure_nil srv S, ?_, ?_⟩
  · rw [runWithRegistry_obj fields srv S h]
  · rw [runWithRegistry_obj fields srv S h]
    rfl
  · intro fields' srv' h' hiff
    refine ⟨loopPure srv' S [], ?_, ?_⟩
    · rw [runWithRegistry_obj fields' srv' S h']
    · rw [keysOf_loopPure_nil srv' S, keysOf_loopPure_nil srv S]
      have hfil : S.filter (fun k => (keysOf srv').contains k) =
          S.filter (fun k => (keysOf srv).contains k) := by
        apply List.filter_congr
        intro k _
        by_cases hm : k ∈ keysOf srv
        · rw [(contains_eq_true_iff _ _).2 hm,
            (contains_eq_true_iff _ _).2 ((hiff k).2 hm)]
        · have hm' : k ∉ keysOf srv' := fun hc => hm ((hiff k).1 hc)
          rw [(contains_eq_false_iff _ _).2 hm, (contains_eq_false_iff _ _).2 hm']
      rw [hfil]

theorem claim_C3_witness :
    ∃ out : List (String × Json),
      (runWithRegistry (Json.obj [("servers", Json.obj [("a", Json.num 1),
        ("b", Json.num 2)])]) ["b", "a"]).written =
        some (outputDoc [("servers", Json.obj [("a", Json.num 1),
          ("b", Json.num 2)])] out) ∧
      keysOf out = firstOccurrences []
        (List.filter (fun k => (keysOf [("a", Json.num 1),
          ("b", Json.num 2)]).contains k) ["b", "a"]) ∧
      (runWithRegistry (Json.obj [("servers", Json.obj [("a", Json.num 1),
        ("b", Json.num 2)])]) ["b", "a"]).stdoutLines.getLast? =
        some (includedLine (keysOf out)) ∧
      (∀ (fields' srv' : List (String × Json)),
        fields'.lookup "servers" = some (Json.obj srv') →
        (∀ k, k ∈ keysOf srv' ↔ k ∈ keysOf [("a", Json.num 1), ("b", Json.num 2)]) →
        ∃ out' : List (String × Json),
          (runWithRegistry (Json.obj fields') ["b", "a"]).written =
            some (outputDoc fields' out') ∧ keysOf out' = keysOf out) :=
  claim_C3 [("servers", Json.obj [("a", Json.num 1), ("b", Json.num 2)])]
    [("a", Json.num 1), ("b", Json.num 2)] ["b", "a"] rfl

/-- C4: for a selected identifier absent from the source servers mapping, the
run emits the warning naming it on the diagnostic stream — exactly as many
copies as the identifier has occurrences in the selection list, hence exactly
one for a once-occurring identifier — and the absence is not fatal: the error
is none, the exit code is zero and the output file is written. -/
theorem claim_C4 (fields srv : List (String × Json)) (S : List String) (id : String)
    (h : fields.lookup "servers" = some (Json.obj srv))
    (hid : id ∈ S) (habs : id ∉ keysOf srv) :
    (runWithRegistry (Json.obj fields) S).error = none ∧
    (runWithRegistry (Json.obj fields) S).exitCode = 0 ∧
    ((runWithRegistry (Json.obj fields) S).written).isSome = true ∧
    warningMsg id ∈ (runWithRegistry (Json.obj fields) S).warnings ∧
    ((runWithRegistry (Json.obj fields) S).warnings).count (warningMsg id) =
      S.count id := by
  rw [runWithRegistry_obj fields srv S h]
  refine ⟨rfl, rfl, rfl, ?_, ?_⟩
  · have hfil : id ∈ S.filter (fun k => !(keysOf srv).contains k) := by
      rw [List.mem_filter]
      exact ⟨hid, by rw [(contains_eq_false_iff _ _).2 habs]; rfl⟩
    exact List.mem_map_of_mem warningMsg hfil
  · show ((S.filter (fun k => !(keysOf srv).contains k)).map warningMsg).count
      (warningMsg id) = S.count id
    rw [count_map_warningMsg]
    exact List.count_filter (by rw [(contains_eq_false_iff _ _).2 habs]; rfl)

theorem claim_C4_witness :
    (runWithRegistry (Json.obj [("servers", Json.obj [])]) ["ghost"]).error = none ∧
    (runWithRegistry (Json.obj [("servers", Json.obj [])]) ["ghost"]).exitCode = 0 ∧
    ((runWithRegistry (Json.obj [("servers", Json.obj [])]) ["ghost"]).written).isSome
      = true ∧
    warningMsg "ghost" ∈
      (runWithRegistry (Json.obj [("servers", Json.obj [])]) ["ghost"]).warnings ∧
    ((runWithRegistry (Json.obj [("servers", Json.obj [])])
      ["ghost"]).warnings).count (warningMsg "ghost") = List.count "ghost" ["ghost"] :=
  claim_C4 [("servers", Json.obj [])] [] ["ghost"] "ghost" rfl
    (List.mem_cons_self "ghost" []) (by simp [keysOf])

/-- C5 counterexample: a registry whose servers field is present but is a
string — not a mapping — does not make the filtering step fail with a
LookupError: with the script's hardcoded selection list the membership tests
become substring tests, every one misses, and the run finishes with no error
and with the output file written. -/
theorem claim_C5_cex :
    (runWithRegistry (Json.obj [("servers", Json.str "x")])
      uncommitted_servers).error = none ∧
    ((runWithRegistry (Json.obj [("servers", Json.str "x")])
      uncommitted_servers).written).isSome = true := by
  exact ⟨rfl, rfl⟩

/-- C5 amended: for an input document that parses to a JSON object with no
servers field, the filtering step fails with KeyError "servers" — which is a
LookupError — the process terminates with exit code 1, and no output file is
produced; a servers field that is present but is not a mapping does not in
general produce a LookupError. -/
theorem claim_C5_amended (fields : List (String × Json))
    (h : fields.lookup "servers" = none) :
    runWithRegistry (Json.obj fields) uncommitted_servers =
      { error := some (PyError.keyError "servers"), warnings := [], written := none,
        stdoutLines := [] } ∧
    PyError.isLookupError (PyError.keyError "servers") = true ∧
    (runWithRegistry (Json.obj fields) uncommitted_servers).exitCode = 1 := by
  have hg : getItem (Json.obj fields) "servers" =
      Except.error (PyError.keyError "servers") := by
    simp only [getItem, h]
  have hloop : extractLoop (Json.obj fields) uncommitted_servers [] =
      (Except.error (PyError.keyError "servers"), []) := by
    simp only [uncommitted_servers, extractLoop, hg]
  have hrun : runWithRegistry (Json.obj fields) uncommitted_servers =
      { error := some (PyError.keyError "servers"), warnings := [], written := none,
        stdoutLines := [] } := by
    simp only [runWithRegistry, pyDictGet, hloop]
  exact ⟨hrun, rfl, by rw [hrun]; rfl⟩

theorem claim_C5_amended_witness :
    runWithRegistry (Json.obj []) uncommitted_servers =
      { error := some (PyError.keyError "servers"), warnings := [], written := none,
        stdoutLines := [] } ∧
    PyError.isLookupError (PyError.keyError "servers") = true ∧
    (runWithRegistry (Json.obj []) uncommitted_servers).exitCode = 1 :=
  claim_C5_amended [] rfl

/-- C6: the single write of the output file happens only at the end of a run
that raised no error, and carries the complete projection of the whole
selection list; on every fatal failure — load failure or a failure inside the
filtering step — nothing at all is written. -/
theorem claim_C6 (file : InputFile) (S : List String) :
    ((fullRun file S).error.isSome = true → (fullRun file S).written = none) ∧
    ((fullRun file S).error = none →
      ∃ registry srv ws, loadRegistry file = Except.ok registry ∧
        extractLoop registry S [] = (Except.ok srv, ws) ∧
        ∃ d1 d2 d3, (fullRun file S).written =
          some (Json.obj [("$schema", d1), ("version", d2), ("last_updated", d3),
            ("servers", Json.obj srv)])) := by
  cases file with
  | missing => exact ⟨fun _ => rfl, fun hc => absurd hc (by simp [fullRun, loadRegistry])⟩
  | invalidJson =>
    exact ⟨fun _ => rfl, fun hc => absurd hc (by simp [fullRun, loadRegistry])⟩
  | parsed registry =>
    have hcases := runWithRegistry_cases registry S
    have hfull : fullRun (InputFile.parsed registry) S = runWithRegistry registry S := rfl
    rw [hfull]
    exact ⟨fun he => (hcases.1 he).1, fun he => by
      obtain ⟨srv, ws, hloop, d1, d2, d3, hw⟩ := hcases.2 he
      exact ⟨registry, srv, ws, rfl, hloop, d1, d2, d3, hw⟩⟩

theorem claim_C6_witness :
    (fullRun InputFile.missing ["x"]).written = none ∧
    (∃ registry srv ws,
      loadRegistry (InputFile.parsed (Json.obj [("servers", Json.obj [])])) =
        Except.ok registry ∧
      extractLoop registry ["x"] [] = (Except.ok srv, ws) ∧
      ∃ d1 d2 d3,
        (fullRun (InputFile.parsed (Json.obj [("servers", Json.obj [])]))
          ["x"]).written =
          some (Json.obj [("$schema", d1), ("version", d2), ("last_updated", d3),
            ("servers", Json.obj srv)])) :=
  ⟨(claim_C6 InputFile.missing ["x"]).1 rfl,
   (claim_C6 (InputFile.parsed (Json.obj [("servers", Json.obj [])])) ["x"]).2 rfl⟩

/-- C7: loading fails with json.JSONDecodeError — the spec's ParseError — when
the input file content is not valid JSON, and with FileNotFoundError — the
spec's NotFoundError — when the input file does not exist; in both cases the
run terminates with exit code 1, prints nothing and writes nothing. -/
theorem claim_C7 (S : List String) :
    loadRegistry InputFile.missing = Except.error PyError.fileNotFoundError ∧
    loadRegistry InputFile.invalidJson = Except.error PyError.jsonDecodeError ∧
    fullRun InputFile.missing S =
      { error := some PyError.fileNotFoundError, warnings := [], written := none,
        stdoutLines := [] } ∧
    fullRun InputFile.invalidJson S =
      { error := some PyError.jsonDecodeError, warnings := [], written := none,
        stdoutLines := [] } ∧
    (fullRun InputFile.missing S).exitCode = 1 ∧
    (fullRun InputFile.invalidJson S).exitCode = 1 :=
  ⟨rfl, rfl, rfl, rfl, rfl, rfl⟩

/-- C8: in the written document the fields $schema, version and last_updated
are the corresponding input fields when present and the empty string when
absent, and the document consists of exactly those three passthrough fields
followed by the projected servers mapping — nothing else is altered. -/
theorem claim_C8 (fields srv : List (String × Json)) (S : List String)
    (h : fields.lookup "servers" = some (Json.obj srv)) :
    ∃ out : List (String × Json),
      (runWithRegistry (Json.obj fields) S).written =
        some (Json.obj [("$schema", passThrough fields "$schema"),
          ("version", passThrough fields "version"),
          ("last_updated", passThrough fields "last_updated"),
          ("servers", Json.obj out)]) ∧
      (∀ key v, fields.lookup key = some v → passThrough fields key = v) ∧
      (∀ key, fields.lookup key = none → passThrough fields key = Json.str "") := by
  refine ⟨loopPure srv S [], ?_, ?_, ?_⟩
  · rw [runWithRegistry_obj fields srv S h]
    rfl
  · intro key v hv
    simp [passThrough, hv]
  · intro key hv
    simp [passThrough, hv]

theorem claim_C8_witness :
    ∃ out : List (String × Json),
      (runWithRegistry (Json.obj [("servers", Json.obj []),
        ("version", Json.str "v1")]) []).written =
        some (Json.obj [("$schema",
            passThrough [("servers", Json.obj []), ("version", Json.str "v1")] "$schema"),
          ("version",
            passThrough [("servers", Json.obj []), ("version", Json.str "v1")] "version"),
          ("last_updated",
            passThrough [("servers", Json.obj []), ("version", Json.str "v1")]
              "last_updated"),
          ("servers", Json.obj out)]) ∧
      (∀ key v, List.lookup key [("servers", Json.obj []), ("version", Json.str "v1")] =
          some v →
        passThrough [("servers", Json.obj []), ("version", Json.str "v1")] key = v) ∧
      (∀ key, List.lookup key [("servers", Json.obj []), ("version", Json.str "v1")] =
          none →
        passThrough [("servers", Json.obj []), ("version", Json.str "v1")] key =
          Json.str "") :=
  claim_C8 [("servers", Json.obj []), ("version", Json.str "v1")] [] [] rfl

/-- C9: projecting with a selection list equal to the full key list of the
source servers mapping reproduces that mapping exactly in the written
document — same keys, same values, key order following the selection list —
and produces no warnings. -/
theorem claim_C9 (fields srv : List (String × Json))
    (h : fields.lookup "servers" = some (Json.obj srv))
    (hnd : (keysOf srv).Nodup) :
    (runWithRegistry (Json.obj fields) (keysOf srv)).written =
      some (outputDoc fields srv) ∧
    (runWithRegistry (Json.obj fields) (keysOf srv)).warnings = [] := by
  rw [runWithRegistry_obj fields srv (keysOf srv) h, loopPure_full_selection srv hnd]
  refine ⟨rfl, ?_⟩
  show warnsOf srv (keysOf srv) = []
  unfold warnsOf
  have hfil : (keysOf srv).filter (fun k => !(keysOf srv).contains k) = [] := by
    rw [List.filter_eq_nil_iff]
    intro a ha
    rw [(contains_eq_true_iff _ _).2 ha]
    simp
  rw [hfil]
  rfl

theorem claim_C9_witness :
    (runWithRegistry (Json.obj [("servers", Json.obj [("a", Json.num 1),
        ("b", Json.num 2)])])
      (keysOf [("a", Json.num 1), ("b", Json.num 2)])).written =
      some (outputDoc [("servers", Json.obj [("a", Json.num 1), ("b", Json.num 2)])]
        [("a", Json.num 1), ("b", Json.num 2)]) ∧
    (runWithRegistry (Json.obj [("servers", Json.obj [("a", Json.num 1),
        ("b", Json.num 2)])])
      (keysOf [("a", Json.num 1), ("b", Json.num 2)])).warnings = [] :=
  claim_C9 [("servers", Json.obj [("a", Json.num 1), ("b", Json.num 2)])]
    [("a", Json.num 1), ("b", Json.num 2)] rfl (by simp [keysOf])

/-- C10: noninterference — two object registries that agree on the four
fields $schema, version, last_updated and servers produce byte-identical
observable behaviour (same written document, same stdout lines, same warnings
and same error), whatever their other top-level fields are. -/
theorem claim_C10 (f1 f2 : List (String × Json)) (S : List String)
    (hs : f1.lookup "$schema" = f2.lookup "$schema")
    (hv : f1.lookup "version" = f2.lookup "version")
    (hl : f1.lookup "last_updated" = f2.lookup "last_updated")
    (hsrv : f1.lookup "servers" = f2.lookup "servers") :
    runWithRegistry (Json.obj f1) S = runWithRegistry (Json.obj f2) S := by
  have hget : getItem (Json.obj f1) "servers" = getItem (Json.obj f2) "servers" := by
    simp only [getItem, hsrv]
  have hloop := extractLoop_congr (Json.obj f1) (Json.obj f2) hget S []
  simp only [runWithRegistry, pyDictGet, hs, hv, hl, hloop]

theorem claim_C10_witness :
    runWithRegistry (Json.obj [("servers", Json.obj [("a", Json.num 1)])]) ["a"] =
      runWithRegistry (Json.obj [("servers", Json.obj [("a", Json.num 1)]),
        ("extra", Json.num 7)]) ["a"] :=
  claim_C10 [("servers", Json.obj [("a", Json.num 1)])]
    [("servers", Json.obj [("a", Json.num 1)]), ("extra", Json.num 7)]
    ["a"] rfl rfl rfl rfl
